import Mathlib

/-!
Verification of the AQVH staged VQE streaming pipeline, its optimizer
comparison and bond-length sweep orchestration, against the repository's
design specification.  The definitions below are shallow embeddings of the
corresponding JavaScript/Python source (frontend pages, `api.js`, and the
backend `run_vqe_stream` generator as given in the repository's own code
listings).
-/

namespace AQVH

/-- One Server-Sent-Events message of the streaming pipeline, as produced by
`run_vqe_stream/generate` (backend/app.py).  Normal events carry a `step`,
a `status` and a `progress` field; the exception path yields a bare
`{'error': msg}` object with none of those fields. -/
structure SSEEvent where
  step : Option String
  status : Option String
  progress : Option Nat
  error : Option String
deriving DecidableEq, Repr

/-- The event yielded by the generator's `except` clause:
`yield {'error': str(e)}`. -/
def errorEvent (msg : String) : SSEEvent :=
  ⟨none, none, none, some msg⟩

/-- The per-iteration event of the `vqe` stage:
`{'step': 'vqe', 'status': 'iterating', 'data': iter_data,
 'progress': 50 + int((i / len(iterations)) * 40)}` (exact floor of the
rational value, mirroring the Python float computation). -/
def iterationEvent (n i : Nat) : SSEEvent :=
  ⟨some "vqe", some "iterating", some (50 + (i * 40) / n), none⟩

/-- Possible outcomes of the four fallible operations inside the
generator: engine construction, `build_hamiltonian`,
`generate_circuit_image`, `run_vqe_with_streaming_callback`; plus the
length of the returned iteration list. -/
structure RunOutcome where
  initOk : Bool
  hamOk : Bool
  circuitOk : Bool
  vqeOk : Bool
  iterCount : Nat
deriving DecidableEq, Repr

/-- Shallow embedding of `run_vqe_stream/generate` (backend/app.py): the
full ordered list of SSE events one run yields, as a function of where (if
anywhere) an exception is raised. -/
def run_vqe_stream (o : RunOutcome) : List SSEEvent :=
  ⟨some "initialize", some "running", some 0, none⟩ ::
  (if o.initOk = false then [errorEvent "engine"] else
    ⟨some "initialize", some "complete", some 10, none⟩ ::
    ⟨some "hamiltonian", some "running", some 15, none⟩ ::
    (if o.hamOk = false then [errorEvent "hamiltonian"] else
      ⟨some "hamiltonian", some "complete", some 30, none⟩ ::
      ⟨some "circuit", some "running", some 35, none⟩ ::
      (if o.circuitOk = false then [errorEvent "circuit"] else
        ⟨some "circuit", some "complete", some 45, none⟩ ::
        ⟨some "vqe", some "running", some 50, none⟩ ::
        (if o.vqeOk = false then [errorEvent "vqe"] else
          (List.range o.iterCount).map (iterationEvent o.iterCount) ++
          [⟨some "results", some "complete", some 100, none⟩]))))

/-- A terminal event, exactly as the frontend subscriber (`api.js`,
`runVQEStream`) recognises one before closing the `EventSource`: either a
bare error object, or the `results`/`complete` message. -/
def isTerminalEvent (e : SSEEvent) : Bool :=
  e.error.isSome || (e.step == some "results" && e.status == some "complete")

/-- Position of a stage tag in the pipeline's fixed stage order. -/
def stageRank (s : String) : Nat :=
  if s = "initialize" then 0
  else if s = "hamiltonian" then 1
  else if s = "circuit" then 2
  else if s = "vqe" then 3
  else 4

/-- The fixed stage order of the streaming pipeline. -/
def stageNames : List String :=
  ["initialize", "hamiltonian", "circuit", "vqe", "results"]

/-- The sequence of stage tags carried by a run's events. -/
def eventSteps (evs : List SSEEvent) : List String :=
  evs.filterMap (fun e => e.step)

/-- The sequence of progress percentages carried by a run's events. -/
def eventProgresses (evs : List SSEEvent) : List Nat :=
  evs.filterMap (fun e => e.progress)

/-- The terminal success event of the generator. -/
def resultsEvent : SSEEvent :=
  ⟨some "results", some "complete", some 100, none⟩

/-- One optimizer's result as consumed by the frontend comparison page
(`results.optimizers[name]`): its final energy and iteration count. -/
structure OptResult where
  energy : ℚ
  num_iterations : Nat
deriving DecidableEq, Repr

/-- The JavaScript `Array.prototype.reduce` call with no initial value, as
used by the Winner Analysis card: fold the tail with the head as the
accumulator, replacing the accumulator exactly when the current element's
measure is strictly smaller. -/
def reduceMinBy {α β : Type} [LinearOrder β] (f : α → β) (a : α) (l : List α) : α :=
  l.foldl (fun best cur => if f cur < f best then cur else best) a

/-- `OptimizerComparison` Winner Analysis, "Lowest Energy" reduce
(MoleculeExplorer.jsx): `currentEnergy < bestEnergy ? current : best` over
the enumerated optimizer entries. -/
def bestOptimizer (hd : String × OptResult) (tl : List (String × OptResult)) :
    String × OptResult :=
  reduceMinBy (fun p => p.2.energy) hd tl

/-- `OptimizerComparison` Winner Analysis, "Fastest Convergence" reduce
(MoleculeExplorer.jsx): `currentIter < fastestIter ? current : fastest`. -/
def fastestOptimizer (hd : String × OptResult) (tl : List (String × OptResult)) :
    String × OptResult :=
  reduceMinBy (fun p => p.2.num_iterations) hd tl

/-- The Winner Analysis card always renders both winners: the
lowest-energy strategy and the fastest strategy. -/
def winnerAnalysis (hd : String × OptResult) (tl : List (String × OptResult)) :
    String × String :=
  ((bestOptimizer hd tl).1, (fastestOptimizer hd tl).1)

/-- Whether a strategy's run in a comparison session failed. -/
def isStrategyError (p : String × Except String OptResult) : Bool :=
  match p.2 with
  | Except.error _ => true
  | Except.ok _ => false

/-- Modelled from the spec: the per-strategy results collected by the
multi-optimizer comparison session (backend `run_multi_optimizer_vqe`,
which is not present under src/) — the successful strategies' results, in
enumeration order. -/
def sessionResults (runs : List (String × Except String OptResult)) :
    List (String × OptResult) :=
  runs.filterMap (fun p =>
    match p.2 with
    | Except.ok v => some (p.1, v)
    | Except.error _ => none)

/-- Modelled from the spec: the per-strategy error events of a comparison
session (backend `run_multi_optimizer_vqe`, not present under src/) — one
event per failed strategy, tagged with that strategy's id. -/
def sessionErrors (runs : List (String × Except String OptResult)) :
    List String :=
  runs.filterMap (fun p =>
    match p.2 with
    | Except.ok _ => none
    | Except.error _ => some p.1)

/-- The aggregate output of a comparison session: successful results,
per-strategy error events, the two winners (when any strategy succeeded),
and whether the session failed as a whole. -/
structure SessionOutput where
  results : List (String × OptResult)
  errorEvents : List String
  ranking : Option (String × String)
  failed : Bool
deriving Repr

/-- Modelled from the spec: the multi-optimizer comparison session
(backend `run_multi_optimizer_vqe`/`multi-optimizer` endpoint, not present
under src/) — run every requested strategy, keep the successes, emit one
error event per failed strategy, rank the successful subset with the
Winner Analysis reduces, and fail as a whole only when no strategy
succeeded. -/
def compareSession (runs : List (String × Except String OptResult)) :
    SessionOutput :=
  let res := sessionResults runs
  ⟨res, sessionErrors runs,
   match res with
   | [] => none
   | hd :: tl => some (winnerAnalysis hd tl),
   res.isEmpty⟩

/-- Modelled from the spec: the bond-scan sample grid — `steps` evenly
spaced values over `[start, end]` including both endpoints (the backend
`np.linspace` call is not present under src/). -/
def gridPoint (s e : ℚ) (n i : Nat) : ℚ :=
  s + i * (e - s) / ((n : ℚ) - 1)

/-- One bond-length sample: its parameter value, and its objective value
when that point's VQE run succeeded (`null`/`N/A` otherwise, exactly as
rendered by BondLengthScan.jsx). -/
structure SweepPoint where
  parameterValue : ℚ
  value : Option ℚ
deriving DecidableEq, Repr

/-- Modelled from the spec: the sweep orchestrator (backend bond-scan
endpoint, not present under src/) — evaluate every grid point, recording a
failed point with an absent value instead of aborting. -/
def sweep (s e : ℚ) (n : Nat) (ev : ℚ → Option ℚ) : List SweepPoint :=
  (List.range n).map (fun i => ⟨gridPoint s e n i, ev (gridPoint s e n i)⟩)

/-- The successfully evaluated sweep points, as (parameterValue, value)
pairs — the `e !== null` filter of BondLengthScan.jsx. -/
def successfulPoints (pts : List SweepPoint) : List (ℚ × ℚ)  :=
  pts.filterMap (fun p => p.value.map (fun v => (p.parameterValue, v)))

/-- Modelled from the spec: the equilibrium estimate — the parameter value
of the sampled point with the numerically lowest successfully-obtained
value, a discrete arg-min over the samples (backend computation not
present under src/). -/
def equilibriumEstimate (pts : List SweepPoint) : Option ℚ :=
  match successfulPoints pts with
  | [] => none
  | hd :: tl => some (reduceMinBy (fun q => q.2) hd tl).1

/-- The `run_vqe` endpoint's entry validation (backend/app.py, as listed
in COMPLETE_PROJECT_WALKTHROUGH.md): `max_iter = data.get('max_iter', 100)`
then `if max_iter < 10 or max_iter > 500: raise ValueError(...)` before
the VQE service — and hence any stage — is invoked. -/
def run_vqe_endpoint (max_iter : Option Int) (o : RunOutcome) :
    Except String (List SSEEvent) :=
  let m := max_iter.getD 100
  if m < 10 ∨ m > 500 then Except.error "Iterations must be 10-500"
  else Except.ok (run_vqe_stream o)

/-- Modelled from the spec: the bond-scan endpoint's entry validation (the
backend endpoint is not present under src/) — a degenerate range
(start ≥ end) or steps < 2 is rejected as InvalidRequest before any sweep
point is evaluated and before any output is produced. -/
def bond_scan_endpoint (s e : ℚ) (steps : Nat) (ev : ℚ → Option ℚ) :
    Except String (List SweepPoint) :=
  if e ≤ s ∨ steps < 2 then Except.error "InvalidRequest"
  else Except.ok (sweep s e steps ev)

/-- `api.runVQEStream` (api.js): `const maxIter = params?.max_iter || 100`
— the request's iteration budget is `params.max_iter` when that value is
truthy, and the default 100 when `max_iter` is missing, null, or zero. -/
def runVQEStreamMaxIter (max_iter : Option Int) : Int :=
  match max_iter with
  | none => 100
  | some v => if v = 0 then 100 else v

/-- A concrete three-strategy comparison request in which exactly S2
fails, matching the spec's partial-failure scenario. -/
def sampleRuns : List (String × Except String OptResult) :=
  [("S1", Except.ok ⟨-1, 30⟩), ("S2", Except.error "boom"),
   ("S3", Except.ok ⟨-2, 40⟩)]

lemma run_vqe_stream_allOk (n : Nat) :
    run_vqe_stream ⟨true, true, true, true, n⟩ =
      [⟨some "initialize", some "running", some 0, none⟩,
       ⟨some "initialize", some "complete", some 10, none⟩,
       ⟨some "hamiltonian", some "running", some 15, none⟩,
       ⟨some "hamiltonian", some "complete", some 30, none⟩,
       ⟨some "circuit", some "running", some 35, none⟩,
       ⟨some "circuit", some "complete", some 45, none⟩,
       ⟨some "vqe", some "running", some 50, none⟩] ++
      (List.range n).map (iterationEvent n) ++ [resultsEvent] := by
  simp [run_vqe_stream, resultsEvent]

lemma eventSteps_allOk (n : Nat) :
    eventSteps (run_vqe_stream ⟨true, true, true, true, n⟩) =
      ["initialize", "initialize", "hamiltonian", "hamiltonian",
       "circuit", "circuit"] ++ List.replicate (n + 1) "vqe" ++ ["results"] := by
  rw [run_vqe_stream_allOk]
  simp only [eventSteps, List.filterMap_append, List.filterMap_map]
  rw [show ((fun (e : SSEEvent) => e.step) ∘ iterationEvent n)
      = some ∘ (fun _ => "vqe") from rfl, List.filterMap_eq_map]
  simp [resultsEvent, List.map_const', List.replicate_succ]

lemma eventProgresses_allOk (n : Nat) :
    eventProgresses (run_vqe_stream ⟨true, true, true, true, n⟩) =
      [0, 10, 15, 30, 35, 45, 50]
        ++ (List.range n).map (fun i => 50 + i * 40 / n) ++ [100] := by
  rw [run_vqe_stream_allOk]
  simp only [eventProgresses, List.filterMap_append, List.filterMap_map]
  rw [show ((fun (e : SSEEvent) => e.progress) ∘ iterationEvent n)
      = some ∘ (fun i => 50 + i * 40 / n) from rfl, List.filterMap_eq_map]
  simp [resultsEvent]

lemma pairwise_le_iterationProgress (n : Nat) :
    List.Pairwise (· ≤ ·) ((List.range n).map (fun i => 50 + i * 40 / n)) := by
  rw [List.pairwise_map]
  exact (List.pairwise_lt_range n).imp (fun h =>
    Nat.add_le_add_left (Nat.div_le_div_right
      (Nat.mul_le_mul_right 40 (Nat.le_of_lt h))) 50)

lemma iterationProgress_bounds (n x : Nat)
    (hx : x ∈ (List.range n).map (fun i => 50 + i * 40 / n)) :
    50 ≤ x ∧ x ≤ 100 := by
  simp only [List.mem_map, List.mem_range] at hx
  obtain ⟨i, hi, rfl⟩ := hx
  refine ⟨Nat.le_add_right 50 _, ?_⟩
  have h1 : i * 40 ≤ n * 40 := Nat.mul_le_mul_right 40 (Nat.le_of_lt hi)
  have h2 : (i * 40) / n ≤ 40 := by
    calc (i * 40) / n ≤ (n * 40) / n := Nat.div_le_div_right h1
    _ ≤ 40 := by
        rcases Nat.eq_zero_or_pos n with h0 | h0
        · simp [h0]
        · rw [Nat.mul_div_cancel_left 40 h0]
  omega

lemma reduceMinBy_decomp {α β : Type} [LinearOrder β] (f : α → β) :
    ∀ (l : List α) (a : α), ∃ l₁ l₂,
      a :: l = l₁ ++ reduceMinBy f a l :: l₂
      ∧ (∀ p ∈ l₁, f (reduceMinBy f a l) < f p)
      ∧ (∀ p ∈ l₂, f (reduceMinBy f a l) ≤ f p) := by
  intro l
  induction l with
  | nil =>
      intro a
      exact ⟨[], [], rfl, by simp, by simp⟩
  | cons c l ih =>
      intro a
      by_cases hc : f c < f a
      · have hstep : reduceMinBy f a (c :: l) = reduceMinBy f c l := by
          simp [reduceMinBy, List.foldl_cons, if_pos hc]
        obtain ⟨l₁, l₂, hEq, hPre, hSuf⟩ := ih c
        have hrc : f (reduceMinBy f c l) ≤ f c := by
          cases l₁ with
          | nil =>
              simp only [List.nil_append] at hEq
              injection hEq with h1 h2
              rw [← h1]
          | cons b l₁' =>
              simp only [List.cons_append] at hEq
              injection hEq with h1 h2
              subst h1
              exact le_of_lt (hPre c (List.mem_cons_self c l₁'))
        rw [hstep]
        refine ⟨a :: l₁, l₂, ?_, ?_, hSuf⟩
        · rw [List.cons_append, ← hEq]
        · intro p hp
          rcases List.mem_cons.mp hp with rfl | hp
          · exact lt_of_le_of_lt hrc hc
          · exact hPre p hp
      · have hstep : reduceMinBy f a (c :: l) = reduceMinBy f a l := by
          simp [reduceMinBy, List.foldl_cons, if_neg hc]
        push_neg at hc
        obtain ⟨l₁, l₂, hEq, hPre, hSuf⟩ := ih a
        rw [hstep]
        cases l₁ with
        | nil =>
            simp only [List.nil_append] at hEq
            injection hEq with h1 h2
            refine ⟨[], c :: l₂, ?_, by simp, ?_⟩
            · rw [List.nil_append, ← h1, ← h2]
            · intro p hp
              rcases List.mem_cons.mp hp with rfl | hp
              · rw [← h1]; exact hc
              · exact hSuf p hp
        | cons b l₁' =>
            simp only [List.cons_append] at hEq
            injection hEq with h1 h2
            subst h1
            refine ⟨a :: c :: l₁', l₂, ?_, ?_, hSuf⟩
            · rw [List.cons_append, List.cons_append, ← h2]
            · intro p hp
              rcases List.mem_cons.mp hp with rfl | hp
              · exact hPre p (List.mem_cons_self _ _)
              · rcases List.mem_cons.mp hp with rfl | hp
                · exact lt_of_lt_of_le (hPre a (List.mem_cons_self _ _)) hc
                · exact hPre p (List.mem_cons_of_mem _ hp)

lemma reduceMinBy_mem {α β : Type} [LinearOrder β] (f : α → β) (a : α) (l : List α) :
    reduceMinBy f a l ∈ a :: l := by
  obtain ⟨l₁, l₂, hEq, _, _⟩ := reduceMinBy_decomp f l a
  rw [hEq]
  exact List.mem_append.mpr (Or.inr (List.mem_cons_self _ _))

lemma reduceMinBy_le {α β : Type} [LinearOrder β] (f : α → β) (a : α) (l : List α) :
    ∀ p ∈ a :: l, f (reduceMinBy f a l) ≤ f p := by
  obtain ⟨l₁, l₂, hEq, hPre, hSuf⟩ := reduceMinBy_decomp f l a
  intro p hp
  rw [hEq] at hp
  rcases List.mem_append.mp hp with hp | hp
  · exact le_of_lt (hPre p hp)
  · rcases List.mem_cons.mp hp with rfl | hp
    · exact le_refl _
    · exact hSuf p hp

end AQVH

namespace AQVH

/-- C1: a single pipeline run emits its stage events in the fixed order
Initialize, BuildModel (hamiltonian), BuildTrialCircuit (circuit),
Optimize (vqe), Finalize (results): the stage ranks along the run are
non-decreasing; exactly one terminal event (complete or error) is emitted,
it is the last event of the channel (so nothing follows it); and on a
fully successful run the stage-tag sequence is exactly Initialize,
BuildModel, BuildTrialCircuit, Optimize, Finalize (with the two events,
running and complete, per non-optimize stage and the per-iteration events
inside Optimize). -/
theorem c1_stage_order_and_single_terminal (o : RunOutcome) :
    List.Pairwise (· ≤ ·) ((eventSteps (run_vqe_stream o)).map stageRank)
    ∧ ((run_vqe_stream o).filter (fun e => isTerminalEvent e)).length = 1
    ∧ (∃ t, (run_vqe_stream o).getLast? = some t ∧ isTerminalEvent t = true)
    ∧ (o.initOk = true → o.hamOk = true → o.circuitOk = true → o.vqeOk = true →
        eventSteps (run_vqe_stream o) =
          ["initialize", "initialize", "hamiltonian", "hamiltonian",
           "circuit", "circuit"] ++ List.replicate (o.iterCount + 1) "vqe"
          ++ ["results"]) := by
  obtain ⟨i, h, c, v, n⟩ := o
  cases i
  · have e1 : run_vqe_stream ⟨false, h, c, v, n⟩ =
        [⟨some "initialize", some "running", some 0, none⟩, errorEvent "engine"] := by
      simp [run_vqe_stream]
    refine ⟨by rw [e1]; decide, by rw [e1]; decide,
      ⟨errorEvent "engine", by rw [e1]; decide, by decide⟩,
      fun hh => (Bool.false_ne_true hh).elim⟩
  cases h
  · have e1 : run_vqe_stream ⟨true, false, c, v, n⟩ =
        [⟨some "initialize", some "running", some 0, none⟩,
         ⟨some "initialize", some "complete", some 10, none⟩,
         ⟨some "hamiltonian", some "running", some 15, none⟩,
         errorEvent "hamiltonian"] := by
      simp [run_vqe_stream]
    refine ⟨by rw [e1]; decide, by rw [e1]; decide,
      ⟨errorEvent "hamiltonian", by rw [e1]; decide, by decide⟩,
      fun _ hh => (Bool.false_ne_true hh).elim⟩
  cases c
  · have e1 : run_vqe_stream ⟨true, true, false, v, n⟩ =
        [⟨some "initialize", some "running", some 0, none⟩,
         ⟨some "initialize", some "complete", some 10, none⟩,
         ⟨some "hamiltonian", some "running", some 15, none⟩,
         ⟨some "hamiltonian", some "complete", some 30, none⟩,
         ⟨some "circuit", some "running", some 35, none⟩,
         errorEvent "circuit"] := by
      simp [run_vqe_stream]
    refine ⟨by rw [e1]; decide, by rw [e1]; decide,
      ⟨errorEvent "circuit", by rw [e1]; decide, by decide⟩,
      fun _ _ hh => (Bool.false_ne_true hh).elim⟩
  cases v
  · have e1 : run_vqe_stream ⟨true, true, true, false, n⟩ =
        [⟨some "initialize", some "running", some 0, none⟩,
         ⟨some "initialize", some "complete", some 10, none⟩,
         ⟨some "hamiltonian", some "running", some 15, none⟩,
         ⟨some "hamiltonian", some "complete", some 30, none⟩,
         ⟨some "circuit", some "running", some 35, none⟩,
         ⟨some "circuit", some "complete", some 45, none⟩,
         ⟨some "vqe", some "running", some 50, none⟩,
         errorEvent "vqe"] := by
      simp [run_vqe_stream]
    refine ⟨by rw [e1]; decide, by rw [e1]; decide,
      ⟨errorEvent "vqe", by rw [e1]; decide, by decide⟩,
      fun _ _ _ hh => (Bool.false_ne_true hh).elim⟩
  refine ⟨?_, ?_, ?_, fun _ _ _ _ => eventSteps_allOk n⟩
  · rw [eventSteps_allOk]
    simp only [List.map_append, List.map_replicate]
    rw [List.pairwise_append, List.pairwise_append]
    have hA : ∀ x ∈ (["initialize", "initialize", "hamiltonian", "hamiltonian",
        "circuit", "circuit"].map stageRank), x ≤ stageRank "vqe" := by decide
    have hR : stageRank "vqe" ≤ stageRank "results" := by decide
    refine ⟨⟨by decide, ?_, ?_⟩, by decide, ?_⟩
    · exact List.pairwise_replicate.mpr (Or.inr (le_refl _))
    · intro a ha b hb
      rw [List.eq_of_mem_replicate hb]
      exact hA a ha
    · intro a ha b hb
      simp only [List.map_cons, List.map_nil, List.mem_singleton] at hb
      subst hb
      rcases List.mem_append.mp ha with ha | ha
      · exact (hA a ha).trans hR
      · rw [List.eq_of_mem_replicate ha]
        exact hR
  · rw [run_vqe_stream_allOk]
    simp [isTerminalEvent, resultsEvent, iterationEvent,
      List.filter_append, List.filter_map, Function.comp]
  · refine ⟨resultsEvent, ?_, by decide⟩
    rw [run_vqe_stream_allOk, List.getLast?_concat]

/-- C1 witness: the full success run with a 2-iteration optimize stage. -/
theorem c1_witness :
    eventSteps (run_vqe_stream ⟨true, true, true, true, 2⟩) =
      ["initialize", "initialize", "hamiltonian", "hamiltonian",
       "circuit", "circuit"] ++ List.replicate 3 "vqe" ++ ["results"] :=
  (c1_stage_order_and_single_terminal ⟨true, true, true, true, 2⟩).2.2.2
    rfl rfl rfl rfl

/-- C2 counterexample: the claim says every event's status is one of
"running", "complete", "error"; but a successful run with one optimizer
iteration delivers an event whose status is "iterating", which is none of
the three. -/
theorem c2_counterexample :
    ∃ e ∈ run_vqe_stream ⟨true, true, true, true, 1⟩,
      ¬(e.status = some "running" ∨ e.status = some "complete"
        ∨ e.status = some "error") := by
  decide

/-- C2 amended: every event of a progress channel either is the bare
terminal error object (an `error` field and no `status` field at all) or
carries a status among "running", "complete" and "iterating"; each
per-iteration optimization event carries the status "iterating". -/
theorem c2_status_values (o : RunOutcome) :
    (∀ e ∈ run_vqe_stream o,
      (e.error.isSome = true ∧ e.status = none)
      ∨ e.status = some "running" ∨ e.status = some "complete"
      ∨ e.status = some "iterating")
    ∧ (∀ n i : Nat, (iterationEvent n i).status = some "iterating") := by
  refine ⟨?_, fun n i => rfl⟩
  obtain ⟨i, h, c, v, n⟩ := o
  cases i
  · intro e he
    have e1 : run_vqe_stream ⟨false, h, c, v, n⟩ =
        [⟨some "initialize", some "running", some 0, none⟩, errorEvent "engine"] := by
      simp [run_vqe_stream]
    rw [e1] at he
    simp only [List.mem_cons, List.not_mem_nil, or_false] at he
    rcases he with rfl | rfl
    · simp
    · simp [errorEvent]
  cases h
  · intro e he
    have e1 : run_vqe_stream ⟨true, false, c, v, n⟩ =
        [⟨some "initialize", some "running", some 0, none⟩,
         ⟨some "initialize", some "complete", some 10, none⟩,
         ⟨some "hamiltonian", some "running", some 15, none⟩,
         errorEvent "hamiltonian"] := by
      simp [run_vqe_stream]
    rw [e1] at he
    simp only [List.mem_cons, List.not_mem_nil, or_false] at he
    rcases he with rfl | rfl | rfl | rfl
    all_goals simp [errorEvent]
  cases c
  · intro e he
    have e1 : run_vqe_stream ⟨true, true, false, v, n⟩ =
        [⟨some "initialize", some "running", some 0, none⟩,
         ⟨some "initialize", some "complete", some 10, none⟩,
         ⟨some "hamiltonian", some "running", some 15, none⟩,
         ⟨some "hamiltonian", some "complete", some 30, none⟩,
         ⟨some "circuit", some "running", some 35, none⟩,
         errorEvent "circuit"] := by
      simp [run_vqe_stream]
    rw [e1] at he
    simp only [List.mem_cons, List.not_mem_nil, or_false] at he
    rcases he with rfl | rfl | rfl | rfl | rfl | rfl
    all_goals simp [errorEvent]
  cases v
  · intro e he
    have e1 : run_vqe_stream ⟨true, true, true, false, n⟩ =
        [⟨some "initialize", some "running", some 0, none⟩,
         ⟨some "initialize", some "complete", some 10, none⟩,
         ⟨some "hamiltonian", some "running", some 15, none⟩,
         ⟨some "hamiltonian", some "complete", some 30, none⟩,
         ⟨some "circuit", some "running", some 35, none⟩,
         ⟨some "circuit", some "complete", some 45, none⟩,
         ⟨some "vqe", some "running", some 50, none⟩,
         errorEvent "vqe"] := by
      simp [run_vqe_stream]
    rw [e1] at he
    simp only [List.mem_cons, List.not_mem_nil, or_false] at he
    rcases he with rfl | rfl | rfl | rfl | rfl | rfl | rfl | rfl
    all_goals simp [errorEvent]
  intro e he
  rw [run_vqe_stream_allOk] at he
  simp only [List.mem_append, List.mem_map, List.mem_singleton,
    List.mem_cons, List.not_mem_nil, or_false] at he
  rcases he with ((rfl | rfl | rfl | rfl | rfl | rfl | rfl) | ⟨j, _, rfl⟩) | rfl
  all_goals simp [iterationEvent, resultsEvent]

/-- C2 amended witness: the first event of a concrete run conforms. -/
theorem c2_status_values_witness :
    (⟨some "initialize", some "running", some 0, none⟩ : SSEEvent).status
      = some "running" := by
  have h := (c2_status_values ⟨true, true, true, true, 0⟩).1
    ⟨some "initialize", some "running", some 0, none⟩
    (by rw [run_vqe_stream_allOk]; simp)
  rcases h with ⟨_, h⟩ | h | h | h
  · exact absurd h (by decide)
  · exact h
  · exact absurd h (by decide)
  · exact absurd h (by decide)

/-- C8: within one progress channel the progress percentages carried by
successive events are non-decreasing, from the first event through the
terminal one, for every pipeline run (events of the bare error object
carry no progress field). -/
theorem c8_progress_monotone (o : RunOutcome) :
    List.Pairwise (· ≤ ·) (eventProgresses (run_vqe_stream o)) := by
  obtain ⟨i, h, c, v, n⟩ := o
  cases i
  · have e1 : run_vqe_stream ⟨false, h, c, v, n⟩ =
        [⟨some "initialize", some "running", some 0, none⟩, errorEvent "engine"] := by
      simp [run_vqe_stream]
    rw [e1]
    simp [eventProgresses, errorEvent]
  cases h
  · have e1 : run_vqe_stream ⟨true, false, c, v, n⟩ =
        [⟨some "initialize", some "running", some 0, none⟩,
         ⟨some "initialize", some "complete", some 10, none⟩,
         ⟨some "hamiltonian", some "running", some 15, none⟩,
         errorEvent "hamiltonian"] := by
      simp [run_vqe_stream]
    rw [e1]
    simp [eventProgresses, errorEvent]
  cases c
  · have e1 : run_vqe_stream ⟨true, true, false, v, n⟩ =
        [⟨some "initialize", some "running", some 0, none⟩,
         ⟨some "initialize", some "complete", some 10, none⟩,
         ⟨some "hamiltonian", some "running", some 15, none⟩,
         ⟨some "hamiltonian", some "complete", some 30, none⟩,
         ⟨some "circuit", some "running", some 35, none⟩,
         errorEvent "circuit"] := by
      simp [run_vqe_stream]
    rw [e1]
    simp [eventProgresses, errorEvent]
  cases v
  · have e1 : run_vqe_stream ⟨true, true, true, false, n⟩ =
        [⟨some "initialize", some "running", some 0, none⟩,
         ⟨some "initialize", some "complete", some 10, none⟩,
         ⟨some "hamiltonian", some "running", some 15, none⟩,
         ⟨some "hamiltonian", some "complete", some 30, none⟩,
         ⟨some "circuit", some "running", some 35, none⟩,
         ⟨some "circuit", some "complete", some 45, none⟩,
         ⟨some "vqe", some "running", some 50, none⟩,
         errorEvent "vqe"] := by
      simp [run_vqe_stream]
    rw [e1]
    simp [eventProgresses, errorEvent]
  rw [eventProgresses_allOk]
  rw [List.pairwise_append, List.pairwise_append]
  have hA : ∀ x ∈ ([0, 10, 15, 30, 35, 45, 50] : List Nat), x ≤ 50 := by decide
  refine ⟨⟨by decide, pairwise_le_iterationProgress n, ?_⟩, by decide, ?_⟩
  · intro a ha b hb
    exact (hA a ha).trans (iterationProgress_bounds n b hb).1
  · intro a ha b hb
    simp only [List.mem_singleton] at hb
    subst hb
    rcases List.mem_append.mp ha with ha | ha
    · exact (hA a ha).trans (by decide)
    · exact (iterationProgress_bounds n a ha).2

/-- C3: over any nonempty set of successful strategy results, the "best
accuracy" winner's finalValue is ≤ every strategy's finalValue, the
"fastest" winner's iterationCount is ≤ every strategy's iterationCount,
both winners are drawn from the result set, and the Winner Analysis always
reports both of them (even when they differ). -/
theorem c3_winner_analysis_correct (hd : String × OptResult)
    (tl : List (String × OptResult)) :
    bestOptimizer hd tl ∈ hd :: tl
    ∧ fastestOptimizer hd tl ∈ hd :: tl
    ∧ (∀ p ∈ hd :: tl,
        (bestOptimizer hd tl).2.energy ≤ p.2.energy
        ∧ (fastestOptimizer hd tl).2.num_iterations ≤ p.2.num_iterations)
    ∧ winnerAnalysis hd tl
        = ((bestOptimizer hd tl).1, (fastestOptimizer hd tl).1) := by
  unfold bestOptimizer fastestOptimizer winnerAnalysis
  exact ⟨reduceMinBy_mem (fun q => q.2.energy) hd tl,
    reduceMinBy_mem (fun q => q.2.num_iterations) hd tl,
    fun p hp => ⟨reduceMinBy_le (fun q => q.2.energy) hd tl p hp,
      reduceMinBy_le (fun q => q.2.num_iterations) hd tl p hp⟩,
    rfl⟩

/-- C3 witness: a concrete two-strategy comparison where the winners
differ (SLSQP has the lower energy, COBYLA the fewer iterations). -/
theorem c3_winner_analysis_witness :
    (bestOptimizer ("SLSQP", ⟨-2, 40⟩) [("COBYLA", ⟨-1, 10⟩)]).2.energy
        ≤ (("COBYLA", (⟨-1, 10⟩ : OptResult))).2.energy
    ∧ (fastestOptimizer ("SLSQP", ⟨-2, 40⟩) [("COBYLA", ⟨-1, 10⟩)]).2.num_iterations
        ≤ (("COBYLA", (⟨-1, 10⟩ : OptResult))).2.num_iterations :=
  ⟨((c3_winner_analysis_correct ("SLSQP", ⟨-2, 40⟩) [("COBYLA", ⟨-1, 10⟩)]).2.2.1
      ("COBYLA", ⟨-1, 10⟩) (by simp)).1,
   ((c3_winner_analysis_correct ("SLSQP", ⟨-2, 40⟩) [("COBYLA", ⟨-1, 10⟩)]).2.2.1
      ("COBYLA", ⟨-1, 10⟩) (by simp)).2⟩

/-- C9 counterexample: SLSQP and COBYLA tie on the lowest finalValue, and
COBYLA needs fewer iterations (5 < 10); the claim says the tied strategy
with fewer iterations (COBYLA) must win, but the Winner Analysis reduce
reports SLSQP, the first-enumerated tied strategy. -/
theorem c9_counterexample :
    bestOptimizer ("SLSQP", ⟨-1, 10⟩) [("COBYLA", ⟨-1, 5⟩)]
        = ("SLSQP", ⟨-1, 10⟩)
    ∧ (("SLSQP", (⟨-1, 10⟩ : OptResult))).2.energy
        = (("COBYLA", (⟨-1, 5⟩ : OptResult))).2.energy
    ∧ (("COBYLA", (⟨-1, 5⟩ : OptResult))).2.num_iterations
        < (("SLSQP", (⟨-1, 10⟩ : OptResult))).2.num_iterations
    ∧ bestOptimizer ("SLSQP", ⟨-1, 10⟩) [("COBYLA", ⟨-1, 5⟩)]
        ≠ ("COBYLA", ⟨-1, 5⟩) := by
  refine ⟨rfl, by norm_num, by decide, ?_⟩
  intro hcontra
  have := congrArg (fun p => p.2.num_iterations) hcontra
  simp [bestOptimizer, reduceMinBy] at this

/-- C9 amended: when strategies tie on the lowest finalValue, the reported
"best accuracy" winner is the tied strategy that is enumerated first —
every strategy listed before the winner has a strictly larger finalValue
and every strategy after it a larger-or-equal one; iteration counts play
no role in the tie-break. -/
theorem c9_tie_broken_by_enumeration_order (hd : String × OptResult)
    (tl : List (String × OptResult)) :
    ∃ l₁ l₂, hd :: tl = l₁ ++ bestOptimizer hd tl :: l₂
      ∧ (∀ p ∈ l₁, (bestOptimizer hd tl).2.energy < p.2.energy)
      ∧ (∀ p ∈ l₂, (bestOptimizer hd tl).2.energy ≤ p.2.energy) := by
  unfold bestOptimizer
  exact reduceMinBy_decomp (fun q => q.2.energy) tl hd

/-- C9 amended witness: on the tied two-strategy instance the
decomposition puts SLSQP first with COBYLA after it. -/
theorem c9_tie_broken_witness :
    ∃ l₁ l₂,
      [("SLSQP", (⟨-1, 10⟩ : OptResult)), ("COBYLA", ⟨-1, 5⟩)]
        = l₁ ++ bestOptimizer ("SLSQP", ⟨-1, 10⟩) [("COBYLA", ⟨-1, 5⟩)] :: l₂
      ∧ (∀ p ∈ l₁,
          (bestOptimizer ("SLSQP", ⟨-1, 10⟩) [("COBYLA", ⟨-1, 5⟩)]).2.energy
            < p.2.energy)
      ∧ (∀ p ∈ l₂,
          (bestOptimizer ("SLSQP", ⟨-1, 10⟩) [("COBYLA", ⟨-1, 5⟩)]).2.energy
            ≤ p.2.energy) :=
  c9_tie_broken_by_enumeration_order ("SLSQP", ⟨-1, 10⟩) [("COBYLA", ⟨-1, 5⟩)]

lemma session_partition (runs : List (String × Except String OptResult)) :
    (sessionResults runs).length + (sessionErrors runs).length = runs.length := by
  induction runs with
  | nil => rfl
  | cons p runs ih =>
      obtain ⟨t, r⟩ := p
      cases r with
      | ok v =>
          simp only [sessionResults, sessionErrors, List.filterMap_cons] at *
          simp only [List.length_cons]
          omega
      | error m =>
          simp only [sessionResults, sessionErrors, List.filterMap_cons] at *
          simp only [List.length_cons]
          omega

lemma sessionErrors_eq_filter (runs : List (String × Except String OptResult)) :
    sessionErrors runs = (runs.filter isStrategyError).map Prod.fst := by
  induction runs with
  | nil => rfl
  | cons p runs ih =>
      obtain ⟨t, r⟩ := p
      cases r with
      | ok v =>
          simp only [sessionErrors, List.filterMap_cons] at *
          simpa [List.filter_cons, isStrategyError] using ih
      | error m =>
          simp only [sessionErrors, List.filterMap_cons] at *
          simpa [List.filter_cons, isStrategyError] using ih

lemma sessionResults_eq_nil_iff (runs : List (String × Except String OptResult)) :
    sessionResults runs = [] ↔ ∀ p ∈ runs, isStrategyError p = true := by
  induction runs with
  | nil => simp [sessionResults]
  | cons p runs ih =>
      obtain ⟨t, r⟩ := p
      cases r with
      | ok v =>
          simp only [sessionResults, List.filterMap_cons]
          simp [isStrategyError]
      | error m =>
          simp only [sessionResults, List.filterMap_cons] at *
          simpa [isStrategyError] using ih

lemma mem_successfulPoints {pts : List SweepPoint} {a b : ℚ} :
    (a, b) ∈ successfulPoints pts
      ↔ ∃ p ∈ pts, p.parameterValue = a ∧ p.value = some b := by
  simp only [successfulPoints, List.mem_filterMap, Option.map_eq_some']
  constructor
  · rintro ⟨p, hp, v, hv, heq⟩
    obtain ⟨h1, h2⟩ := Prod.mk.injEq _ _ _ _ ▸ heq
    exact ⟨p, hp, h1, by rw [hv, h2]⟩
  · rintro ⟨p, hp, hpa, hpv⟩
    exact ⟨p, hp, b, hpv, by rw [hpa]⟩

lemma equilibrium_is_argmin (pts : List SweepPoint) :
    ∀ x : ℚ, equilibriumEstimate pts = some x →
      ∃ p ∈ pts, p.parameterValue = x ∧ ∃ v : ℚ, p.value = some v
        ∧ ∀ q ∈ pts, ∀ w : ℚ, q.value = some w → v ≤ w := by
  intro x hx
  unfold equilibriumEstimate at hx
  cases hsp : successfulPoints pts with
  | nil => rw [hsp] at hx; cases hx
  | cons hd tl =>
      rw [hsp] at hx
      injection hx with hx
      have hrmem : reduceMinBy (fun q => q.2) hd tl ∈ successfulPoints pts := by
        rw [hsp]; exact reduceMinBy_mem _ hd tl
      have hrmem2 : ((reduceMinBy (fun q => q.2) hd tl).1,
          (reduceMinBy (fun q => q.2) hd tl).2) ∈ successfulPoints pts := by
        rw [Prod.mk.eta]; exact hrmem
      obtain ⟨p, hp, hpa, hpv⟩ := mem_successfulPoints.mp hrmem2
      refine ⟨p, hp, ?_, (reduceMinBy (fun q => q.2) hd tl).2, hpv, ?_⟩
      · rw [hpa]; exact hx
      · intro q hq w hw
        have hqmem : (q.parameterValue, w) ∈ successfulPoints pts :=
          mem_successfulPoints.mpr ⟨q, hq, rfl, hw⟩
        rw [hsp] at hqmem
        have hle := reduceMinBy_le (fun z => z.2) hd tl _ hqmem
        simpa using hle

lemma gridPoint_zero (s e : ℚ) (n : Nat) : gridPoint s e n 0 = s := by
  simp [gridPoint]

lemma gridPoint_last (s e : ℚ) (n : Nat) (hn : 2 ≤ n) :
    gridPoint s e n (n - 1) = e := by
  have h1 : (1 : ℕ) ≤ n := le_trans (by omega) hn
  have hcast : ((n - 1 : ℕ) : ℚ) = (n : ℚ) - 1 := by
    rw [Nat.cast_sub h1, Nat.cast_one]
  have hne : (n : ℚ) - 1 ≠ 0 := by
    have h2 : (2 : ℚ) ≤ (n : ℚ) := by exact_mod_cast hn
    intro h0
    have : (n : ℚ) = 1 := by linarith
    linarith
  unfold gridPoint
  rw [hcast]
  field_simp

lemma gridPoint_spacing (s e : ℚ) (n i : Nat) :
    gridPoint s e n (i + 1) - gridPoint s e n i = (e - s) / ((n : ℚ) - 1) := by
  unfold gridPoint
  push_cast
  ring

lemma length_filter_bool_split {α : Type} (q : α → Bool) (l : List α) :
    (l.filter q).length + (l.filter (fun a => !(q a))).length = l.length := by
  induction l with
  | nil => rfl
  | cons a l ih =>
      cases hqa : q a <;> simp [List.filter_cons, hqa] <;> omega

/-- C4: if exactly one strategy of a comparison session fails, the failure
is reported as one error event tagged with that strategy alone, the
remaining strategies' results are all collected, a ranking is produced
over the successful subset, and the session does not fail as a whole —
the whole session fails exactly when every strategy fails. -/
theorem c4_one_strategy_failure :
    (∀ runs : List (String × Except String OptResult),
      (runs.filter isStrategyError).length = 1 →
        (∃ t msg, (t, Except.error msg) ∈ runs
          ∧ (compareSession runs).errorEvents = [t])
        ∧ (compareSession runs).results.length = runs.length - 1
        ∧ (2 ≤ runs.length →
            (compareSession runs).ranking.isSome = true
            ∧ (compareSession runs).failed = false))
    ∧ (∀ runs : List (String × Except String OptResult),
        ((compareSession runs).failed = true
          ↔ ∀ p ∈ runs, isStrategyError p = true)) := by
  constructor
  · intro runs h1
    obtain ⟨a, ha⟩ := List.length_eq_one.mp h1
    have hamem : a ∈ runs.filter isStrategyError := by
      rw [ha]; exact List.mem_cons_self _ _
    rw [List.mem_filter] at hamem
    obtain ⟨hmem, herr⟩ := hamem
    obtain ⟨t, r⟩ := a
    obtain ⟨msg, rfl⟩ : ∃ msg, r = Except.error msg := by
      cases r with
      | ok v => simp [isStrategyError] at herr
      | error m => exact ⟨m, rfl⟩
    have he1 : (sessionErrors runs).length = 1 := by
      rw [sessionErrors_eq_filter, ha]; rfl
    have hp := session_partition runs
    refine ⟨⟨t, msg, hmem, ?_⟩, ?_, ?_⟩
    · show sessionErrors runs = [t]
      rw [sessionErrors_eq_filter, ha]; rfl
    · show (sessionResults runs).length = runs.length - 1
      omega
    · intro h2
      have hres : 1 ≤ (sessionResults runs).length := by omega
      cases hres2 : sessionResults runs with
      | nil => rw [hres2] at hres; simp at hres
      | cons hd tl =>
          constructor
          · show (match sessionResults runs with
              | [] => none
              | hd :: tl => some (winnerAnalysis hd tl)).isSome = true
            rw [hres2]; rfl
          · show (sessionResults runs).isEmpty = false
            rw [hres2]; rfl
  · intro runs
    show (sessionResults runs).isEmpty = true ↔ _
    rw [List.isEmpty_iff]
    exact sessionResults_eq_nil_iff runs

/-- C4 witness: the spec's scenario — three strategies, S2 forced to
fail — yields two results, a ranking, exactly one error event (for S2),
and no whole-session failure. -/
theorem c4_one_strategy_failure_witness :
    (∃ t msg, (t, Except.error msg) ∈ sampleRuns
      ∧ (compareSession sampleRuns).errorEvents = [t])
    ∧ (compareSession sampleRuns).results.length = 2
    ∧ ((compareSession sampleRuns).ranking.isSome = true
        ∧ (compareSession sampleRuns).failed = false) := by
  have h := c4_one_strategy_failure.1 sampleRuns (by decide)
  exact ⟨h.1, h.2.1, h.2.2 (by decide)⟩

/-- C5: a sweep over [start, end] with `steps = n ≥ 2` returns exactly n
points whose parameter values are the evenly spaced grid including both
endpoints (consecutive samples differ by the constant (end−start)/(n−1)),
and the equilibrium estimate is the parameter value of a sampled point
whose successfully-obtained value is ≤ every other successful sample's
value — a discrete arg-min over the n samples. -/
theorem c5_sweep_grid_and_argmin (s e : ℚ) (n : Nat) (ev : ℚ → Option ℚ)
    (hn : 2 ≤ n) :
    (sweep s e n ev).length = n
    ∧ (sweep s e n ev).map SweepPoint.parameterValue
        = (List.range n).map (gridPoint s e n)
    ∧ gridPoint s e n 0 = s
    ∧ gridPoint s e n (n - 1) = e
    ∧ (∀ i : Nat,
        gridPoint s e n (i + 1) - gridPoint s e n i = (e - s) / ((n : ℚ) - 1))
    ∧ (∀ x : ℚ, equilibriumEstimate (sweep s e n ev) = some x →
        ∃ p ∈ sweep s e n ev, p.parameterValue = x
          ∧ ∃ v : ℚ, p.value = some v
          ∧ ∀ q ∈ sweep s e n ev, ∀ w : ℚ, q.value = some w → v ≤ w) := by
  refine ⟨by simp [sweep], ?_, gridPoint_zero s e n, gridPoint_last s e n hn,
    gridPoint_spacing s e n, equilibrium_is_argmin (sweep s e n ev)⟩
  simp [sweep, List.map_map]

/-- C5 witness: the spec's scenario sweep(0.5, 2.0, steps = 10) — ten
points, first at 0.5, last at 2.0. -/
theorem c5_sweep_witness :
    (sweep (1/2) 2 10 (fun q => some q)).length = 10
    ∧ gridPoint (1/2) 2 10 0 = 1/2
    ∧ gridPoint (1/2) 2 10 (10 - 1) = 2 := by
  have h := c5_sweep_grid_and_argmin (1/2) 2 10 (fun q => some q) (by decide)
  exact ⟨h.1, h.2.2.1, h.2.2.2.1⟩

/-- C6: the sweep result always has exactly n entries (a per-point failure
does not abort the sweep), and when exactly one of the n points failed, the
failed point's value is absent and the other n − 1 points are populated. -/
theorem c6_sweep_point_failure_tolerated (s e : ℚ) (n : Nat) (ev : ℚ → Option ℚ) :
    (sweep s e n ev).length = n
    ∧ (((sweep s e n ev).filter (fun p => p.value.isNone)).length = 1 →
        ((sweep s e n ev).filter (fun p => p.value.isSome)).length = n - 1) := by
  have hlen : (sweep s e n ev).length = n := by simp [sweep]
  refine ⟨hlen, fun h1 => ?_⟩
  have hsplit := length_filter_bool_split
    (fun (p : SweepPoint) => p.value.isNone) (sweep s e n ev)
  have hfun : (fun (p : SweepPoint) => !(p.value.isNone))
      = (fun p => p.value.isSome) := by
    funext p
    cases p.value <;> rfl
  rw [hfun] at hsplit
  omega

/-- C6 witness: a one-point sweep whose single point fails still returns
one entry, and the populated count is n − 1 = 0. -/
theorem c6_sweep_point_failure_tolerated_witness :
    ((sweep 0 1 1 (fun _ => none)).filter
      (fun p => p.value.isSome)).length = 0 :=
  (c6_sweep_point_failure_tolerated 0 1 1 (fun _ => none)).2 rfl

/-- C7: out-of-range input is rejected synchronously at the entry point:
an iteration budget outside [10, 500] makes `run_vqe` raise
InvalidRequest before any stage runs and before any event is produced
(the error carries no event list), a missing budget defaults to 100 and
is accepted, and a degenerate sweep range (start ≥ end) or steps < 2 makes
the bond-scan endpoint reject with InvalidRequest before any sweep point
is evaluated. -/
theorem c7_invalid_request_rejected :
    (∀ (m : Int) (o : RunOutcome), (m < 10 ∨ m > 500) →
        run_vqe_endpoint (some m) o = Except.error "Iterations must be 10-500")
    ∧ (∀ o : RunOutcome,
        run_vqe_endpoint none o = Except.ok (run_vqe_stream o))
    ∧ (∀ (s e : ℚ) (steps : Nat) (ev : ℚ → Option ℚ), (e ≤ s ∨ steps < 2) →
        bond_scan_endpoint s e steps ev = Except.error "InvalidRequest") := by
  refine ⟨?_, ?_, ?_⟩
  · intro m o hm
    simp only [run_vqe_endpoint, Option.getD_some]
    rw [if_pos hm]
  · intro o
    simp [run_vqe_endpoint]
  · intro s e steps ev hcond
    simp only [bond_scan_endpoint]
    rw [if_pos hcond]

/-- C7 witness: budget 600 and a one-step scan are both rejected. -/
theorem c7_invalid_request_witness :
    run_vqe_endpoint (some 600) ⟨true, true, true, true, 0⟩
        = Except.error "Iterations must be 10-500"
    ∧ bond_scan_endpoint 0 1 1 (fun q => some q)
        = Except.error "InvalidRequest" :=
  ⟨c7_invalid_request_rejected.1 600 ⟨true, true, true, true, 0⟩
      (Or.inr (by decide)),
   c7_invalid_request_rejected.2.2 0 1 1 (fun q => some q)
      (Or.inr (by decide))⟩

/-- C10: in `runVQEStream` the iteration budget sent to the server is
`params.max_iter` exactly when that value is truthy; a missing, null, or
zero `max_iter` yields the default budget 100, and no request can ever be
issued with an iteration budget of 0. -/
theorem c10_max_iter_truthy_default :
    runVQEStreamMaxIter none = 100
    ∧ runVQEStreamMaxIter (some 0) = 100
    ∧ (∀ v : Int, v ≠ 0 → runVQEStreamMaxIter (some v) = v)
    ∧ (∀ p : Option Int, runVQEStreamMaxIter p ≠ 0) := by
  refine ⟨rfl, rfl, fun v hv => by simp [runVQEStreamMaxIter, hv],
    fun p => ?_⟩
  cases p with
  | none => decide
  | some v =>
      by_cases hv : v = 0
      · subst hv; decide
      · simp [runVQEStreamMaxIter, hv]

/-- C10 witness: a truthy budget of 7 is passed through unchanged and is
nonzero. -/
theorem c10_max_iter_witness :
    runVQEStreamMaxIter (some 7) = 7
    ∧ runVQEStreamMaxIter (some 7) ≠ 0 :=
  ⟨c10_max_iter_truthy_default.2.2.1 7 (by decide),
   c10_max_iter_truthy_default.2.2.2 (some 7)⟩

end AQVH
